import Mathlib

/-!
Shallow embedding of `parse.py`, a single-file utility that walks a
directory tree and emits one markdown document: a rendered ASCII tree,
one fenced section per non-ignored file, and a summary.

The file system is modelled as an inductive tree of named nodes.  A
`FileData` carries the observable inputs the script consumes for one
file: its name, raw content bytes, whether `read_text` succeeds at the
OS level (`readOk`), whether `stat`/`open` inside `get_file_stats`
succeeds (`statOk`), the byte size reported by `stat`, and the already
formatted modification time string.
-/

set_option autoImplicit false

/-- `IGNORE_DIRS` from `parse.py` (a Python `set`; order is irrelevant,
membership is what the code tests). -/
def IGNORE_DIRS : List String :=
  [".anchor", ".git", "node_modules", "target", "__pycache__", ".idea",
   ".vscode", "venv", "dist", "build", "test-ledger", "public", "api",
   "bank", "config", "middleware", "tests", "utils"]

/-- `IGNORE_FILES` from `parse.py`. -/
def IGNORE_FILES : List String :=
  [".DS_Store", "Thumbs.db", ".gitignore", ".prettierignore", "cargo.bak",
   "Cargo.lock", "yarn.lock", "README.md", "Dockerfile", "parse.py",
   "package-lock.json", "go.sum", "go.mod", "swagger.yaml", "internal.md",
   "setup.sh", "start-validator.sh", "CONTRIBUTING.md", "DEPLOYMENT.md",
   "LICENSE", "pnpm-lock.yaml", "SETUP.md", "update.txt", "banks.json",
   "hold.json", "file.json", "storage.json"]

/-- The membership test `name in IGNORE_DIRS or name in IGNORE_FILES`
used (positively or negatively) at both filtering sites of the script. -/
def ignoredName (s : String) : Bool :=
  IGNORE_DIRS.contains s || IGNORE_FILES.contains s

/-- Observable inputs of one regular file. -/
structure FileData where
  name : String
  bytes : List Nat
  readOk : Bool
  statOk : Bool
  sizeBytes : Nat
  mtime : String
  deriving DecidableEq, Repr

/-- A directory entry: a regular file or a directory with its listing,
children given in the order the OS listing (`iterdir` / `scandir`)
yields them. -/
inductive FSNode where
  | file (f : FileData)
  | dir (name : String) (children : List FSNode)
  deriving Repr

/-- `entry.name`. -/
def FSNode.name : FSNode → String
  | .file f => f.name
  | .dir n _ => n

/-- `entry.is_file()` (in this model every node is a file or a dir). -/
def FSNode.isFile : FSNode → Bool
  | .file _ => true
  | .dir _ _ => false

/-- The listing of a directory node (empty for files). -/
def FSNode.children : FSNode → List FSNode
  | .file _ => []
  | .dir _ cs => cs

/-- Python `str.lower()` (character-wise lowercasing; the names this
program compares are ASCII). -/
def strLower (s : String) : String := String.mk (s.toList.map Char.toLower)

/-- Strict comparison of the sort key `(e.is_file(), e.name.lower())`
used by `generate_tree` (tuple comparison: `False < True`, then
code-point order on the lowercased name). -/
def entryKeyLt (a b : FSNode) : Bool :=
  (!a.isFile && b.isFile) ||
    ((a.isFile == b.isFile) && decide (strLower a.name < strLower b.name))

/-- Stable insertion of `x` into `l`: `x` goes in front of the first
element not strictly below it. -/
def insortNode (x : FSNode) : List FSNode → List FSNode
  | [] => [x]
  | y :: ys => if entryKeyLt y x then y :: insortNode x ys else x :: y :: ys

/-- Stable sort by `entryKeyLt`; extensionally equal to Python's
`sorted` with key `(e.is_file(), e.name.lower())`, since both are
stable sorts for the same total preorder. -/
def pySorted : List FSNode → List FSNode
  | [] => []
  | x :: xs => insortNode x (pySorted xs)

/-- The marker line `generate_tree` emits past the depth limit
(without the caller-supplied prefix). -/
def maxDepthMarker : String := "└── ... (max depth reached)"

mutual

/-- Body of `generate_tree` with the depth bookkeeping rephrased as
fuel `max_depth + 1 - depth`: `depth > max_depth` is exactly `fuel = 0`
and the recursive call at `depth + 1` is the call at `fuel - 1`. -/
def renderGo (fuel : Nat) (entries : List FSNode) (pre : String) :
    List String :=
  match fuel with
  | 0 => [pre ++ maxDepthMarker]
  | fuel' + 1 =>
    renderEntries fuel'
      (pySorted (entries.filter (fun e => !(ignoredName e.name)))) pre
termination_by (fuel, 0, 0)

/-- The `for i, entry in enumerate(entries)` loop of `generate_tree`:
connector by last-sibling position, trailing `/` on directories, and
recursion into directories with the extended prefix. -/
def renderEntries (fuel : Nat) (es : List FSNode) (pre : String) :
    List String :=
  match es with
  | [] => []
  | e :: rest =>
    let connector := if rest.isEmpty then "└── " else "├── "
    let line := pre ++ connector ++ e.name ++ (if e.isFile then "" else "/")
    let sub :=
      if e.isFile then []
      else
        renderGo fuel e.children
          (pre ++ (if rest.isEmpty then "    " else "│   "))
    line :: (sub ++ renderEntries fuel rest pre)
termination_by (fuel, 1, es.length)

end

/-- `generate_tree(root, prefix, depth, max_depth)`; the node's listing
stands for the directory, and the depth pair is collapsed into the
fuel `max_depth + 1 - depth`. -/
def generate_tree (entries : List FSNode) (pre : String)
    (depth : Nat) (maxDepth : Nat) : List String :=
  renderGo (maxDepth + 1 - depth) entries pre

/-- `pathlib.PurePath.suffix` of a file name: the part of the name from
its last dot, provided that dot is neither the first nor the last
character; otherwise the empty string. -/
def pathSuffix (name : String) : String :=
  let cs := name.toList
  match ((List.range cs.length).filter (fun i => cs.getD i ' ' == '.')).getLast? with
  | some i => if 0 < i ∧ i < cs.length - 1 then String.mk (cs.drop i) else ""
  | none => ""

/-- The fixed `extension_mapping` dict of `detect_content_type`. -/
def extension_mapping : List (String × String) :=
  [(".rs", "rust"), (".go", "go"), (".py", "python"), (".js", "javascript"),
   (".ts", "typescript"), (".java", "java"), (".c", "c"), (".cpp", "cpp"),
   (".cs", "csharp"), (".rb", "ruby"), (".php", "php"), (".html", "html"),
   (".css", "css"), (".scss", "scss"), (".toml", "toml"), (".json", "json"),
   (".md", "markdown"), (".txt", "plaintext"), (".sh", "shell"),
   (".yml", "yaml"), (".yaml", "yaml"), (".sql", "sql"), (".xml", "xml"),
   (".dockerfile", "dockerfile"), (".ipynb", "json")]

/-- `detect_content_type(file_path)`.  The table is consulted on the
lowercased suffix; a falsy result (absent key, modelled by `getD ""`)
falls through to `mimetypes.guess_type`, which is system state outside
this repository and is therefore passed in as an abstract guess
function of the file name (its result depends only on the name's
extension); a guessed type contributes its part after the last slash,
and no guess yields `"plaintext"`. -/
def detect_content_type (guessMime : String → Option String)
    (fileName : String) : String :=
  let language := (extension_mapping.lookup (strLower (pathSuffix fileName))).getD ""
  if language ≠ "" then language
  else
    match guessMime fileName with
    | some m => (m.splitOn "/").getLastD ""
    | none => "plaintext"

/-- UTF-8 continuation byte test. -/
def isCont (b : Nat) : Bool := decide (128 ≤ b ∧ b < 192)

/-- Fuelled body of the lenient UTF-8 decoder; fuel is the length of
the byte list at the top call, and each step consumes one unit of fuel
and at least one byte, so the fuel never runs out. -/
def decodeGo : Nat → List Nat → List Char
  | _, [] => []
  | 0, _ => []
  | fuel + 1, b :: rest =>
    if b < 128 then Char.ofNat b :: decodeGo fuel rest
    else if b < 194 then decodeGo fuel rest
    else if b < 224 then
      match rest with
      | [] => []
      | c :: r2 =>
        if isCont c then
          Char.ofNat ((b - 192) * 64 + (c - 128)) :: decodeGo fuel r2
        else decodeGo fuel (c :: r2)
    else if b < 240 then
      match rest with
      | [] => []
      | c :: r2 =>
        if isCont c ∧ ¬(b = 224 ∧ c < 160) ∧ ¬(b = 237 ∧ 160 ≤ c) then
          match r2 with
          | [] => []
          | d :: r3 =>
            if isCont d then
              Char.ofNat (((b - 224) * 64 + (c - 128)) * 64 + (d - 128)) ::
                decodeGo fuel r3
            else decodeGo fuel (d :: r3)
        else decodeGo fuel (c :: r2)
    else if b < 245 then
      match rest with
      | [] => []
      | c :: r2 =>
        if isCont c ∧ ¬(b = 240 ∧ c < 144) ∧ ¬(b = 244 ∧ 144 ≤ c) then
          match r2 with
          | [] => []
          | d :: r3 =>
            if isCont d then
              match r3 with
              | [] => []
              | e2 :: r4 =>
                if isCont e2 then
                  Char.ofNat ((((b - 240) * 64 + (c - 128)) * 64 + (d - 128)) * 64
                      + (e2 - 128)) :: decodeGo fuel r4
                else decodeGo fuel (e2 :: r4)
            else decodeGo fuel (d :: r3)
        else decodeGo fuel (c :: r2)
    else decodeGo fuel rest

/-- Modelled from the spec: CPython's `bytes` → `str` decoding with
`encoding="utf-8", errors="ignore"` (the decoder itself lives in the
Python runtime, not in this repository).  It is total: invalid or
truncated sequences are dropped (the maximal invalid subpart is
skipped and decoding resumes at the next byte), never an error. -/
def decodeUtf8Ignore (bs : List Nat) : List Char := decodeGo bs.length bs

/-- Line counting as Python file iteration counts lines: one line per
newline character, plus a final line for a non-empty tail after the
last newline. -/
def countLines : List Char → Nat
  | [] => 0
  | [_] => 1
  | c :: rest => (if c = '\n' then 1 else 0) + countLines rest

/-- The byte size converted to hundredths of a KB with two-decimal
rounding, as `f-string` formatting `{size / 1024:.2f}` produces. -/
def sizeCenti (bytes : Nat) : Nat := (bytes * 100 + 512) / 1024

/-- Two-digit zero-padded decimal part. -/
def pad2 (n : Nat) : String := if n < 10 then "0" ++ toString n else toString n

/-- Renders hundredths as a two-decimal number string. -/
def formatCenti (c : Nat) : String := toString (c / 100) ++ "." ++ pad2 (c % 100)

/-- The dictionary built by `get_file_stats`. -/
structure FileStats where
  size : String
  modified : String
  lines : Nat
  deriving Repr, DecidableEq

/-- `get_file_stats(file_path)`: on any failure inside the `try`
(modelled by `statOk = false`) the whole dictionary is absent;
otherwise size (formatted KB string), modification time, and the line
count of the leniently decoded content. -/
def get_file_stats (f : FileData) : Option FileStats :=
  if f.statOk then
    some { size := formatCenti (sizeCenti f.sizeBytes) ++ " KB"
           modified := f.mtime
           lines := countLines (decodeUtf8Ignore f.bytes) }
  else none

/-- The direct children of a directory as `(path parts, file)` pairs,
keeping only regular files (the walk tests `is_file()`). -/
def childFiles (base : List String) (es : List FSNode) :
    List (List String × FileData) :=
  es.filterMap (fun e =>
    match e with
    | FSNode.file f => some (base ++ [f.name], f)
    | FSNode.dir _ _ => none)

mutual

/-- `root.rglob("*")` restricted to the regular files it yields, with
the path parts relative to the walk root: all files directly in the
current directory first, then, directory by directory in listing
order, the files below each subdirectory.  The glob descends into
ignored directories too — filtering happens per yielded path later. -/
def rglobWalk (base : List String) (es : List FSNode) :
    List (List String × FileData) :=
  childFiles base es ++ subWalk base es
termination_by (sizeOf es, 1)

/-- The recursive part of `rglobWalk`: walk below each subdirectory. -/
def subWalk (base : List String) (es : List FSNode) :
    List (List String × FileData) :=
  match es with
  | [] => []
  | FSNode.file _ :: rest => subWalk base rest
  | FSNode.dir n cs :: rest => rglobWalk (base ++ [n]) cs ++ subWalk base rest
termination_by (sizeOf es, 0)

end

/-- Python `set.add` on the distinct-extensions set, modelled as a
duplicate-free list (the summary sorts it before display, so internal
order is irrelevant). -/
def insertType (l : List String) (s : String) : List String :=
  if l.contains s then l else l ++ [s]

/-- The summary accumulator and the per-file markdown sections
gathered by the walk loop of `parse_codebase`. -/
structure WalkState where
  file_count : Nat
  total_size : Nat
  file_types : List String
  sections : List String
  deriving Repr, DecidableEq

/-- One iteration of the walk loop of `parse_codebase` for a yielded
file: skip silently if any component of the full path (resolved root
parts followed by the relative parts) is an ignored name; otherwise,
if `read_text` succeeds at the OS level, decode the content leniently,
classify, collect stats, bump the counters (size only when stats
succeeded) and append the file's markdown section; if `read_text`
raises (an OS-level error — lenient decoding never raises), the
`except` branch warns on stderr and leaves the state unchanged. -/
def processFile (gm : String → Option String) (rootParts : List String)
    (st : WalkState) (item : List String × FileData) : WalkState :=
  if (rootParts ++ item.1).any (fun part => ignoredName part) then st
  else
    let f := item.2
    if f.readOk then
      let content := String.mk (decodeUtf8Ignore f.bytes)
      let language := detect_content_type gm f.name
      let file_stats := get_file_stats f
      let file_info :=
        "### " ++ String.intercalate "/" item.1 ++ "\n" ++
          (match file_stats with
           | some fs =>
             "- Size: " ++ fs.size ++ "\n- Lines: " ++ toString fs.lines ++
               "\n- Last Modified: " ++ fs.modified ++ "\n"
           | none => "")
      { file_count := st.file_count + 1
        total_size := st.total_size +
          (match file_stats with
           | some _ => sizeCenti f.sizeBytes
           | none => 0)
        file_types := insertType st.file_types (pathSuffix f.name)
        sections := st.sections ++
          [file_info ++ "\n```" ++ language ++ "\n" ++ content ++
            "\n```\n\n---\n"] }
    else st

/-- The whole walk loop: fold `processFile` over every file yielded by
the recursive glob, starting from zeroed counters. -/
def runWalk (gm : String → Option String) (rootParts : List String)
    (cs : List FSNode) : WalkState :=
  (rglobWalk [] cs).foldl (processFile gm rootParts) ⟨0, 0, [], []⟩

/-- Stable insertion for sorting plain strings (Python `sorted`). -/
def insortStr (x : String) : List String → List String
  | [] => [x]
  | y :: ys => if y < x then y :: insortStr x ys else x :: y :: ys

/-- `sorted` on strings in code-point order. -/
def sortStrings : List String → List String
  | [] => []
  | x :: xs => insortStr x (sortStrings xs)

/-- The fenced tree block: root name line plus the rendered tree with
the defaults `prefix=""`, `depth=0`, `max_depth=5`. -/
def treeStructure (name : String) (cs : List FSNode) : String :=
  "```tree\n" ++
    String.intercalate "\n" (("📁 " ++ name) :: generate_tree cs "" 0 5) ++
    "\n```"

/-- The five leading `md_parts` entries of `parse_codebase`. -/
def mdHeaderParts (name now tree : String) : List String :=
  ["# Codebase Analysis: " ++ name ++ "\n",
   "Generated: " ++ now ++ "\n",
   "---\n\n## 📂 Project Structure\n",
   tree,
   "\n---\n\n## 📄 File Contents\n"]

/-- The summary fragment appended after the walk. -/
def summaryParts (st : WalkState) : List String :=
  ["\n---\n## 📊 Summary\n",
   "- Total files: " ++ toString st.file_count ++ "\n",
   "- Total size: " ++ formatCenti st.total_size ++ " KB\n",
   "- File types: " ++
     String.intercalate ", "
       (sortStrings (st.file_types.map (fun ft => if ft == "" then "unknown" else ft))) ++
     "\n"]

/-- The full ordered `md_parts` list of a run that passes root
validation. -/
def okParts (gm : String → Option String) (rootParts : List String)
    (name : String) (cs : List FSNode) (now : String) : List String :=
  mdHeaderParts name now (treeStructure name cs) ++
    (runWalk gm rootParts cs).sections ++ summaryParts (runWalk gm rootParts cs)

/-- Outcome of one run: either the ordered markdown fragments that get
joined and written, or the message of the exception caught by the
outermost handler and printed to stderr. -/
inductive RunResult where
  | ok (parts : List String)
  | error (msg : String)
  deriving Repr, DecidableEq

/-- `parse_codebase(root_folder, output_file)`.  The file system is
presented as `root`: `none` when the resolved path does not exist,
a file node when it exists but is not a directory, a directory node
otherwise; `rootParts` are the components of the resolved root path
(`root.parts` prefix of every walked path), `gm` the ambient MIME
table and `now` the generation timestamp. -/
def parse_codebase (root_folder : String) (rootParts : List String)
    (root : Option FSNode) (gm : String → Option String) (now : String) :
    RunResult :=
  match root with
  | none => RunResult.error ("Folder not found: " ++ root_folder)
  | some (FSNode.file _) =>
    RunResult.error ("Path is not a directory: " ++ root_folder)
  | some (FSNode.dir name cs) => RunResult.ok (okParts gm rootParts name cs now)

/-- Content of the output path after the run, given its prior content:
only the success path reaches `output_path.write_text`, which
overwrites with the joined fragments; the error path prints to stderr
and returns without touching the output path. -/
def outputFileAfter (prev : Option String) (r : RunResult) : Option String :=
  match r with
  | RunResult.ok parts => some (String.join parts)
  | RunResult.error _ => prev

/-- The single line printed to stderr by the outermost handler. -/
def stderrReport : RunResult → Option String
  | RunResult.ok _ => none
  | RunResult.error m => some ("❌ Error: " ++ m)

mutual

/-- Deletes, at every level, the entries whose name is in either
ignore set; what remains is the part of the tree the ignore policy can
never exclude. -/
def pruneList : List FSNode → List FSNode
  | [] => []
  | e :: rest =>
    if ignoredName e.name then pruneList rest
    else pruneNode e :: pruneList rest

/-- Prunes below one surviving entry. -/
def pruneNode : FSNode → FSNode
  | FSNode.file f => FSNode.file f
  | FSNode.dir n cs => FSNode.dir n (pruneList cs)

end

mutual

/-- No entry at any level has an ignored name. -/
def allCleanList : List FSNode → Bool
  | [] => true
  | e :: rest => allCleanNode e && allCleanList rest

/-- Cleanliness of one entry and everything below it. -/
def allCleanNode : FSNode → Bool
  | FSNode.file f => !ignoredName f.name
  | FSNode.dir n cs => !ignoredName n && allCleanList cs

end

mutual

/-- Cuts a listing to the given remaining render fuel: at zero fuel
the renderer never looks at the entries at all. -/
def truncList : Nat → List FSNode → List FSNode
  | 0, _ => []
  | fuel + 1, es => es.map (truncNode fuel)
termination_by fuel _ => (fuel, 0)

/-- Keeps one entry, cutting its listing at the next level. -/
def truncNode (fuel : Nat) : FSNode → FSNode
  | FSNode.file f => FSNode.file f
  | FSNode.dir n cs => FSNode.dir n (truncList fuel cs)
termination_by _ => (fuel, 1)

end

/-- Non-ignored entries the renderer lists within the remaining fuel:
one per surviving entry, recursively below surviving directories while
fuel lasts. -/
def shownCount : Nat → List FSNode → Nat
  | 0, _ => 0
  | fuel + 1, es =>
    ((es.filter (fun e => !(ignoredName e.name))).map
      (fun e => 1 + (if e.isFile then 0 else shownCount fuel e.children))).sum

/-- Marker lines the renderer emits: one whenever a directory is
entered with no fuel left, regardless of its contents. -/
def markerCount : Nat → List FSNode → Nat
  | 0, _ => 1
  | fuel + 1, es =>
    ((es.filter (fun e => !(ignoredName e.name))).map
      (fun e => if e.isFile then 0 else markerCount fuel e.children)).sum

mutual

/-- Total number of entries in a listing, nested entries included. -/
def numEntriesList : List FSNode → Nat
  | [] => 0
  | e :: rest => numEntriesNode e + numEntriesList rest

/-- Entry count of one node and everything below it. -/
def numEntriesNode : FSNode → Nat
  | FSNode.file _ => 1
  | FSNode.dir _ cs => 1 + numEntriesList cs

end

/-- A MIME table with no entries, for concrete runs. -/
def gmNone : String → Option String := fun _ => none

/-- The zeroed accumulator the walk starts from. -/
def st0 : WalkState := ⟨0, 0, [], []⟩

/-- A chain of `n` nested directories and nothing else. -/
def mkChain : Nat → List FSNode
  | 0 => []
  | n + 1 => [FSNode.dir ("d" ++ toString (n + 1)) (mkChain n)]

/-- A plain two-line Python file used by concrete runs. -/
def aPy : FileData :=
  { name := "a.py"
    bytes := [112, 114, 105, 110, 116, 40, 49, 41, 10, 112, 114, 105, 110,
              116, 40, 50, 41]
    readOk := true
    statOk := true
    sizeBytes := 17
    mtime := "2024-05-01 10:00:00" }

/-- A file whose bytes are not valid UTF-8 anywhere. -/
def badBin : FileData :=
  { name := "bad.bin"
    bytes := [255, 250, 128]
    readOk := true
    statOk := true
    sizeBytes := 10
    mtime := "2024-01-01 00:00:00" }

/-- A MIME table that answers `text/html` for every name. -/
def gmHtml : String → Option String := fun _ => some "text/html"

/-- `aPy` with stat collection failing. -/
def aPyNoStat : FileData := { aPy with statOk := false }

/-- `aPy` with the OS-level read failing. -/
def aPyBroken : FileData := { aPy with readOk := false }


theorem pruneNode_name (e : FSNode) : (pruneNode e).name = e.name := by
  cases e <;> rfl

theorem pruneNode_isFile (e : FSNode) : (pruneNode e).isFile = e.isFile := by
  cases e <;> rfl

theorem pruneNode_children (e : FSNode) :
    (pruneNode e).children = pruneList e.children := by
  cases e <;> rfl

theorem truncNode_name (fuel : Nat) (e : FSNode) :
    (truncNode fuel e).name = e.name := by
  cases e <;> simp [truncNode, FSNode.name]

theorem truncNode_isFile (fuel : Nat) (e : FSNode) :
    (truncNode fuel e).isFile = e.isFile := by
  cases e <;> simp [truncNode, FSNode.isFile]

theorem truncNode_children (fuel : Nat) (e : FSNode) :
    (truncNode fuel e).children = truncList fuel e.children := by
  cases e
  · cases fuel <;> simp [truncNode, FSNode.children, truncList]
  · simp [truncNode, FSNode.children]

theorem entryKeyLt_congr (g : FSNode → FSNode)
    (hn : ∀ e, (g e).name = e.name) (hf : ∀ e, (g e).isFile = e.isFile)
    (a b : FSNode) : entryKeyLt (g a) (g b) = entryKeyLt a b := by
  simp [entryKeyLt, hn, hf]

theorem insortNode_map (g : FSNode → FSNode)
    (hn : ∀ e, (g e).name = e.name) (hf : ∀ e, (g e).isFile = e.isFile)
    (x : FSNode) (l : List FSNode) :
    insortNode (g x) (l.map g) = (insortNode x l).map g := by
  induction l with
  | nil => rfl
  | cons y ys ih =>
    simp only [List.map_cons, insortNode, entryKeyLt_congr g hn hf]
    by_cases h : entryKeyLt y x = true
    · simp [h, ih]
    · simp [h]

theorem pySorted_map (g : FSNode → FSNode)
    (hn : ∀ e, (g e).name = e.name) (hf : ∀ e, (g e).isFile = e.isFile)
    (l : List FSNode) : pySorted (l.map g) = (pySorted l).map g := by
  induction l with
  | nil => rfl
  | cons x xs ih => simp only [List.map_cons, pySorted, ih, insortNode_map g hn hf]

theorem filter_keep_map (g : FSNode → FSNode)
    (hn : ∀ e, (g e).name = e.name) (l : List FSNode) :
    (l.map g).filter (fun e => !(ignoredName e.name)) =
      (l.filter (fun e => !(ignoredName e.name))).map g := by
  induction l with
  | nil => rfl
  | cons e rest ih =>
    simp only [List.map_cons, List.filter_cons, hn e]
    by_cases h : ignoredName e.name = true
    · simp [h, ih]
    · simp [h, ih]

theorem pruneList_eq_filter_map (es : List FSNode) :
    pruneList es = (es.filter (fun e => !(ignoredName e.name))).map pruneNode := by
  induction es with
  | nil => rfl
  | cons e rest ih =>
    simp only [pruneList, List.filter_cons]
    by_cases h : ignoredName e.name = true
    · simp [h, ih]
    · simp [h, ih]

theorem renderEntries_congr (fuel : Nat) (g : FSNode → FSNode)
    (hn : ∀ e, (g e).name = e.name) (hf : ∀ e, (g e).isFile = e.isFile)
    (hc : ∀ e p, renderGo fuel (g e).children p = renderGo fuel e.children p)
    (l : List FSNode) (pre : String) :
    renderEntries fuel (l.map g) pre = renderEntries fuel l pre := by
  induction l generalizing pre with
  | nil => rfl
  | cons e rest ih =>
    simp only [List.map_cons, renderEntries]
    have hemp : (rest.map g).isEmpty = rest.isEmpty := by cases rest <;> rfl
    simp only [hemp, hn e, hf e]
    by_cases h : e.isFile = true
    · simp [h, ih]
    · simp only [Bool.not_eq_true] at h
      simp [h, hc e, ih]

theorem renderGo_prune (fuel : Nat) :
    ∀ (es : List FSNode) (pre : String),
      renderGo fuel (pruneList es) pre = renderGo fuel es pre := by
  induction fuel with
  | zero => intro es pre; simp [renderGo]
  | succ fuel ih =>
    intro es pre
    simp only [renderGo]
    rw [pruneList_eq_filter_map es,
      filter_keep_map pruneNode pruneNode_name,
      List.filter_filter]
    simp only [Bool.and_self]
    rw [pySorted_map pruneNode pruneNode_name pruneNode_isFile]
    exact renderEntries_congr fuel pruneNode pruneNode_name pruneNode_isFile
      (fun e p => by rw [pruneNode_children]; exact ih e.children p) _ pre

theorem renderGo_trunc (fuel : Nat) :
    ∀ (es : List FSNode) (pre : String),
      renderGo fuel (truncList fuel es) pre = renderGo fuel es pre := by
  induction fuel with
  | zero => intro es pre; simp [renderGo, truncList]
  | succ fuel ih =>
    intro es pre
    simp only [truncList, renderGo]
    rw [filter_keep_map (truncNode fuel) (truncNode_name fuel),
      pySorted_map (truncNode fuel) (truncNode_name fuel) (truncNode_isFile fuel)]
    exact renderEntries_congr fuel (truncNode fuel) (truncNode_name fuel)
      (truncNode_isFile fuel)
      (fun e p => by rw [truncNode_children]; exact ih e.children p) _ pre

theorem processFile_skip (gm : String → Option String) (rp : List String)
    (st : WalkState) (item : List String × FileData)
    (h : (rp ++ item.1).any (fun part => ignoredName part) = true) :
    processFile gm rp st item = st := by
  simp [processFile, h]

theorem foldl_processFile_skip (gm : String → Option String) (rp : List String)
    (items : List (List String × FileData))
    (h : ∀ item ∈ items, (rp ++ item.1).any (fun part => ignoredName part) = true) :
    ∀ st : WalkState, items.foldl (processFile gm rp) st = st := by
  induction items with
  | nil => intro st; rfl
  | cons it rest ih =>
    intro st
    simp only [List.foldl_cons]
    rw [processFile_skip gm rp st it (h it (by simp))]
    exact ih (fun x hx => h x (by simp [hx])) st

mutual

theorem rglobWalk_rel_extends (base : List String) (es : List FSNode) :
    ∀ item ∈ rglobWalk base es, ∃ t, item.1 = base ++ t := by
  intro item hmem
  rw [rglobWalk] at hmem
  rcases List.mem_append.mp hmem with hcf | hsw
  · rcases List.mem_filterMap.mp hcf with ⟨e, _, heq⟩
    cases e with
    | file f =>
      simp only [childFiles] at heq
      exact ⟨[f.name], by rw [← Option.some_inj.mp heq]⟩
    | dir n cs => simp at heq
  · exact subWalk_rel_extends base es item hsw
termination_by (sizeOf es, 1)

theorem subWalk_rel_extends (base : List String) (es : List FSNode) :
    ∀ item ∈ subWalk base es, ∃ t, item.1 = base ++ t := by
  match es with
  | [] => intro item h; rw [subWalk] at h; exact absurd h (List.not_mem_nil item)
  | FSNode.file f :: rest =>
    intro item h
    rw [subWalk] at h
    exact subWalk_rel_extends base rest item h
  | FSNode.dir n cs :: rest =>
    intro item h
    rw [subWalk] at h
    rcases List.mem_append.mp h with hin | hrest
    · rcases rglobWalk_rel_extends (base ++ [n]) cs item hin with ⟨t, ht⟩
      exact ⟨n :: t, by simp [ht]⟩
    · exact subWalk_rel_extends base rest item hrest
termination_by (sizeOf es, 0)

end

theorem childFiles_map_prune (base : List String) (l : List FSNode) :
    childFiles base (l.map pruneNode) = childFiles base l := by
  induction l with
  | nil => rfl
  | cons e rest ih =>
    cases e with
    | file f => simp [childFiles, pruneNode] at ih ⊢; exact ih
    | dir n cs => simp [childFiles, pruneNode] at ih ⊢; exact ih

theorem foldl_childFiles_filter (gm : String → Option String) (rp : List String)
    (base : List String) (es : List FSNode) :
    ∀ st : WalkState,
      (childFiles base (es.filter (fun e => !(ignoredName e.name)))).foldl
          (processFile gm rp) st =
        (childFiles base es).foldl (processFile gm rp) st := by
  induction es with
  | nil => intro st; rfl
  | cons e rest ih =>
    intro st
    cases e with
    | file f =>
      by_cases h : ignoredName f.name = true
      · simp only [List.filter_cons, FSNode.name, h]
        simp only [Bool.not_true, Bool.false_eq_true, if_false, childFiles,
          List.filterMap_cons, List.foldl_cons]
        rw [processFile_skip gm rp st (base ++ [f.name], f)
          (by simp [List.any_append, h])]
        exact ih st
      · simp only [Bool.not_eq_true] at h
        simp only [List.filter_cons, FSNode.name, h]
        simp only [Bool.not_false, if_true, childFiles, List.filterMap_cons,
          List.foldl_cons]
        exact ih _
    | dir n cs =>
      by_cases h : ignoredName n = true
      · simp only [List.filter_cons, FSNode.name, h]
        simp only [Bool.not_true, Bool.false_eq_true, if_false, childFiles,
          List.filterMap_cons]
        exact ih st
      · simp only [Bool.not_eq_true] at h
        simp only [List.filter_cons, FSNode.name, h]
        simp only [Bool.not_false, if_true, childFiles, List.filterMap_cons]
        exact ih st

mutual

theorem foldl_rglob_prune (gm : String → Option String) (rp : List String)
    (base : List String) (es : List FSNode) (st : WalkState) :
    (rglobWalk base (pruneList es)).foldl (processFile gm rp) st =
      (rglobWalk base es).foldl (processFile gm rp) st := by
  rw [rglobWalk, rglobWalk, List.foldl_append, List.foldl_append]
  rw [pruneList_eq_filter_map, childFiles_map_prune,
    foldl_childFiles_filter gm rp base es st,
    ← pruneList_eq_filter_map]
  exact foldl_sub_prune gm rp base es _
termination_by (sizeOf es, 1)

theorem foldl_sub_prune (gm : String → Option String) (rp : List String)
    (base : List String) (es : List FSNode) (st : WalkState) :
    (subWalk base (pruneList es)).foldl (processFile gm rp) st =
      (subWalk base es).foldl (processFile gm rp) st := by
  match es with
  | [] => rfl
  | FSNode.file f :: rest =>
    by_cases h : ignoredName f.name = true
    · simp only [pruneList, FSNode.name, h, if_true, subWalk]
      exact foldl_sub_prune gm rp base rest st
    · simp only [pruneList, FSNode.name, h, Bool.false_eq_true, if_false,
        pruneNode, subWalk]
      exact foldl_sub_prune gm rp base rest st
  | FSNode.dir n cs :: rest =>
    by_cases h : ignoredName n = true
    · simp only [pruneList, FSNode.name, h, if_true, subWalk, List.foldl_append]
      rw [foldl_processFile_skip gm rp (rglobWalk (base ++ [n]) cs)
        (fun item hitem => by
          rcases rglobWalk_rel_extends (base ++ [n]) cs item hitem with ⟨t, ht⟩
          refine List.any_eq_true.mpr ⟨n, ?_, h⟩
          rw [ht]
          simp) st]
      exact foldl_sub_prune gm rp base rest st
    · simp only [pruneList, FSNode.name, h, Bool.false_eq_true, if_false,
        pruneNode, subWalk, List.foldl_append]
      rw [foldl_rglob_prune gm rp (base ++ [n]) cs st]
      exact foldl_sub_prune gm rp base rest _
termination_by (sizeOf es, 0)

end

theorem allCleanList_pruneList (es : List FSNode) :
    allCleanList (pruneList es) = true := by
  match es with
  | [] => rfl
  | e :: rest =>
    by_cases h : ignoredName e.name = true
    · simp only [pruneList, h, if_true]
      exact allCleanList_pruneList rest
    · simp only [pruneList, h, Bool.false_eq_true, if_false, allCleanList,
        Bool.and_eq_true]
      refine ⟨?_, allCleanList_pruneList rest⟩
      cases e with
      | file f =>
        simp only [FSNode.name] at h
        simp [pruneNode, allCleanNode, h]
      | dir n cs =>
        simp only [FSNode.name] at h
        simp [pruneNode, allCleanNode, h, allCleanList_pruneList cs]
termination_by sizeOf es

theorem sum_map_insortNode (f : FSNode → Nat) (x : FSNode) (l : List FSNode) :
    ((insortNode x l).map f).sum = f x + (l.map f).sum := by
  induction l with
  | nil => simp [insortNode]
  | cons y ys ih =>
    simp only [insortNode]
    by_cases h : entryKeyLt y x = true
    · simp only [h, if_true, List.map_cons, List.sum_cons, ih]
      omega
    · simp [h]

theorem sum_map_pySorted (f : FSNode → Nat) (l : List FSNode) :
    ((pySorted l).map f).sum = (l.map f).sum := by
  induction l with
  | nil => rfl
  | cons x xs ih => simp [pySorted, sum_map_insortNode, ih]

theorem sum_weights (fuel : Nat) (l : List FSNode) :
    (l.map (fun e =>
      1 + (if e.isFile then 0
           else shownCount fuel e.children + markerCount fuel e.children))).sum =
      (l.map (fun e =>
        1 + (if e.isFile then 0 else shownCount fuel e.children))).sum +
      (l.map (fun e => if e.isFile then 0 else markerCount fuel e.children)).sum := by
  induction l with
  | nil => rfl
  | cons e rest ih =>
    simp only [List.map_cons, List.sum_cons, ih]
    by_cases h : e.isFile = true <;> simp [h] <;> ring

mutual

theorem renderGo_length (fuel : Nat) (es : List FSNode) (pre : String) :
    (renderGo fuel es pre).length = shownCount fuel es + markerCount fuel es := by
  match fuel with
  | 0 => simp [renderGo, shownCount, markerCount]
  | fuel + 1 =>
    rw [renderGo, renderEntries_length fuel _ pre, sum_map_pySorted,
      sum_weights]
    simp only [shownCount, markerCount]
termination_by (fuel, 0, 0)

theorem renderEntries_length (fuel : Nat) (es : List FSNode) (pre : String) :
    (renderEntries fuel es pre).length =
      (es.map (fun e =>
        1 + (if e.isFile then 0
             else shownCount fuel e.children + markerCount fuel e.children))).sum := by
  match es with
  | [] => simp [renderEntries]
  | e :: rest =>
    simp only [renderEntries, List.length_cons, List.length_append,
      List.map_cons, List.sum_cons]
    by_cases h : e.isFile = true
    · simp only [h, if_true, List.length_nil]
      rw [renderEntries_length fuel rest pre]
      omega
    · simp only [h, Bool.false_eq_true, if_false]
      rw [renderGo_length fuel e.children
        (pre ++ (if rest.isEmpty then "    " else "│   ")),
        renderEntries_length fuel rest pre]
      ring
termination_by (fuel, 1, es.length)

end

theorem processFile_count_invariant (gm : String → Option String)
    (rp : List String) (st : WalkState) (it : List String × FileData)
    (h : st.file_count = st.sections.length) :
    (processFile gm rp st it).file_count =
      (processFile gm rp st it).sections.length := by
  by_cases h1 : (rp ++ it.1).any (fun part => ignoredName part) = true
  · simpa [processFile, h1] using h
  · by_cases h2 : it.2.readOk = true
    · simp [processFile, h1, h2, h, List.length_append]
    · simpa [processFile, h1, h2] using h

theorem foldl_count_sections (gm : String → Option String) (rp : List String)
    (items : List (List String × FileData)) :
    ∀ st : WalkState, st.file_count = st.sections.length →
      (items.foldl (processFile gm rp) st).file_count =
        (items.foldl (processFile gm rp) st).sections.length := by
  induction items with
  | nil => intro st h; exact h
  | cons it rest ih =>
    intro st h
    simp only [List.foldl_cons]
    exact ih _ (processFile_count_invariant gm rp st it h)

/-- C1: a path whose component list (below the root) contains a name
from either ignore set appears neither in the rendered tree nor as a
per-file section: deleting every such entry (`pruneList`) changes
neither the tree lines nor the whole walk state (sections, counters),
and the pruned tree is exactly the ignore-free part of the input. -/
theorem claim_C1 (es : List FSNode) (pre : String) (depth maxD : Nat)
    (gm : String → Option String) (rp : List String) (cs : List FSNode) :
    generate_tree (pruneList es) pre depth maxD = generate_tree es pre depth maxD
    ∧ runWalk gm rp (pruneList cs) = runWalk gm rp cs
    ∧ allCleanList (pruneList es) = true := by
  refine ⟨renderGo_prune _ es pre, ?_, allCleanList_pruneList es⟩
  exact foldl_rglob_prune gm rp [] cs ⟨0, 0, [], []⟩

/-- C2: a missing root yields the "not found" error, an existing
non-directory root the "not a directory" error; both abort the run
with the message on stderr and leave any pre-existing output file
untouched. -/
theorem claim_C2 (rf : String) (rp : List String) (gm : String → Option String)
    (now : String) (prev : Option String) (f : FileData) :
    parse_codebase rf rp none gm now =
        RunResult.error ("Folder not found: " ++ rf)
    ∧ parse_codebase rf rp (some (FSNode.file f)) gm now =
        RunResult.error ("Path is not a directory: " ++ rf)
    ∧ outputFileAfter prev (parse_codebase rf rp none gm now) = prev
    ∧ outputFileAfter prev (parse_codebase rf rp (some (FSNode.file f)) gm now) =
        prev
    ∧ stderrReport (parse_codebase rf rp none gm now) =
        some ("❌ Error: " ++ ("Folder not found: " ++ rf))
    ∧ stderrReport (parse_codebase rf rp (some (FSNode.file f)) gm now) =
        some ("❌ Error: " ++ ("Path is not a directory: " ++ rf)) :=
  ⟨rfl, rfl, rfl, rfl, rfl, rfl⟩

/-- C5: the total-files number rendered in the summary equals the
number of per-file sections the walk emitted. -/
theorem claim_C5 (gm : String → Option String) (rp : List String)
    (cs : List FSNode) :
    (runWalk gm rp cs).file_count = (runWalk gm rp cs).sections.length
    ∧ (summaryParts (runWalk gm rp cs)).get? 1 =
        some ("- Total files: " ++ toString (runWalk gm rp cs).sections.length ++
          "\n") := by
  have h : (runWalk gm rp cs).file_count = (runWalk gm rp cs).sections.length :=
    foldl_count_sections gm rp (rglobWalk [] cs) ⟨0, 0, [], []⟩ rfl
  exact ⟨h, by simp [summaryParts, h]⟩

/-- C6: past the depth limit `generate_tree` returns the single marker
line without looking at the entries, and within the limit its output
only depends on the tree up to the remaining fuel (`truncList`), so
recursion depth is bounded by `max_depth` whatever the tree's actual
depth (termination itself is by construction of the embedding). -/
theorem claim_C6 (es : List FSNode) (pre : String) (depth maxD : Nat) :
    (maxD < depth → generate_tree es pre depth maxD = [pre ++ maxDepthMarker])
    ∧ generate_tree (truncList (maxD + 1 - depth) es) pre depth maxD =
        generate_tree es pre depth maxD := by
  constructor
  · intro h
    have h0 : maxD + 1 - depth = 0 := by omega
    simp [generate_tree, h0, renderGo]
  · exact renderGo_trunc _ es pre

/-- Witness for C6 at a concrete call past the limit. -/
theorem claim_C6_witness :
    generate_tree [FSNode.dir "src" [FSNode.file aPy]] "x" 6 5 =
      ["x" ++ maxDepthMarker] :=
  (claim_C6 [FSNode.dir "src" [FSNode.file aPy]] "x" 6 5).1 (by omega)

/-- C7: two runs over the same tree differ at most in the
`Generated:` header element (index 1); every other fragment — the
tree block and all file sections included — is identical. -/
theorem claim_C7 (gm : String → Option String) (rp : List String) (n : String)
    (cs : List FSNode) (rf t1 t2 : String) :
    (okParts gm rp n cs t1).length = (okParts gm rp n cs t2).length
    ∧ (okParts gm rp n cs t1).take 1 = (okParts gm rp n cs t2).take 1
    ∧ (okParts gm rp n cs t1).drop 2 = (okParts gm rp n cs t2).drop 2
    ∧ (okParts gm rp n cs t1).get? 1 = some ("Generated: " ++ t1 ++ "\n")
    ∧ parse_codebase rf rp (some (FSNode.dir n cs)) gm t1 =
        RunResult.ok (okParts gm rp n cs t1) := by
  refine ⟨?_, rfl, rfl, rfl, rfl⟩
  simp [okParts, mdHeaderParts]

/-- C8: the walk filter tests every component of the resolved path,
root components included: when any root component is an ignored name,
every yielded file is skipped, so the walk state stays zeroed and the
output is header, tree block and summary with no file sections — while
the tree fragment (index 3) never depends on the root parts at all. -/
theorem claim_C8 (gm : String → Option String) (rp : List String) (n : String)
    (cs : List FSNode) (rf now : String)
    (h : rp.any (fun part => ignoredName part) = true) :
    runWalk gm rp cs = ⟨0, 0, [], []⟩
    ∧ parse_codebase rf rp (some (FSNode.dir n cs)) gm now =
        RunResult.ok (mdHeaderParts n now (treeStructure n cs) ++
          summaryParts ⟨0, 0, [], []⟩)
    ∧ ∀ rp2 : List String,
        (okParts gm rp n cs now).get? 3 = (okParts gm rp2 n cs now).get? 3 := by
  have hw : runWalk gm rp cs = ⟨0, 0, [], []⟩ := by
    unfold runWalk
    exact foldl_processFile_skip gm rp _
      (fun item _ => by
        rcases List.any_eq_true.mp h with ⟨p, hp, hip⟩
        exact List.any_eq_true.mpr ⟨p, List.mem_append_left _ hp, hip⟩) _
  refine ⟨hw, ?_, ?_⟩
  · simp [parse_codebase, okParts, hw]
  · intro rp2
    simp [okParts, mdHeaderParts]

/-- Witness for C8: a root resolved under a directory named `build`
yields no file sections even though a file is present. -/
theorem claim_C8_witness :
    runWalk gmNone ["/", "build"] [FSNode.file aPy] = ⟨0, 0, [], []⟩ :=
  (claim_C8 gmNone ["/", "build"] "proj" [FSNode.file aPy] "r" "t"
    (by decide)).1

/-- C10: a directory entered past the limit contributes exactly one
marker line (even when empty), and the rendered line count is the
number of non-ignored entries shown within the limit plus one marker
per directory entered beyond it; on a chain of six nested directories
the count is 7 lines for 6 entries, so it is not the entry count in
general. -/
theorem claim_C10 (es : List FSNode) (pre : String) (depth maxD : Nat) :
    (generate_tree es pre depth maxD).length =
      shownCount (maxD + 1 - depth) es + markerCount (maxD + 1 - depth) es
    ∧ (maxD < depth → generate_tree es pre depth maxD = [pre ++ maxDepthMarker])
    ∧ (generate_tree (mkChain 6) "" 0 5).length = 7
    ∧ numEntriesList (mkChain 6) = 6 := by
  refine ⟨renderGo_length _ es pre, ?_, ?_, ?_⟩
  · intro h
    have h0 : maxD + 1 - depth = 0 := by omega
    simp [generate_tree, h0, renderGo]
  · have h := renderGo_length 6 (mkChain 6) ""
    show (renderGo 6 (mkChain 6) "").length = 7
    rw [h]
    decide
  · decide

/-- Witness for C10: an empty listing entered past the limit still
produces one marker line. -/
theorem claim_C10_witness :
    generate_tree [] "q" 7 5 = ["q" ++ maxDepthMarker] :=
  (claim_C10 [] "q" 7 5).2.1 (by omega)

/-- C3: when stat collection fails for a file (`get_file_stats` gives
`none`) the walk continues: the section is still emitted with the
content in its fenced block but with no stats lines, the file is
counted, its extension recorded, and nothing is added to the running
size total. -/
theorem claim_C3 (gm : String → Option String) (rp rel : List String)
    (f : FileData) (st : WalkState)
    (hclean : (rp ++ rel).any (fun part => ignoredName part) = false)
    (hread : f.readOk = true) (hstat : f.statOk = false) :
    processFile gm rp st (rel, f) =
      { file_count := st.file_count + 1
        total_size := st.total_size
        file_types := insertType st.file_types (pathSuffix f.name)
        sections := st.sections ++
          ["### " ++ String.intercalate "/" rel ++ "\n" ++ "\n```" ++
            detect_content_type gm f.name ++ "\n" ++
            String.mk (decodeUtf8Ignore f.bytes) ++ "\n```\n\n---\n"] } := by
  simp [processFile, get_file_stats, hclean, hread, hstat]

/-- Witness for C3 on a readable file whose stat fails. -/
theorem claim_C3_witness :
    processFile gmNone ["/", "home"] st0 (["a.py"], aPyNoStat) =
      { file_count := st0.file_count + 1
        total_size := st0.total_size
        file_types := insertType st0.file_types (pathSuffix aPyNoStat.name)
        sections := st0.sections ++
          ["### " ++ String.intercalate "/" ["a.py"] ++ "\n" ++ "\n```" ++
            detect_content_type gmNone aPyNoStat.name ++ "\n" ++
            String.mk (decodeUtf8Ignore aPyNoStat.bytes) ++ "\n```\n\n---\n"] } :=
  claim_C3 gmNone ["/", "home"] ["a.py"] aPyNoStat st0 (by decide) rfl rfl

theorem lookup_val_mem {α β : Type} [BEq α] (k : α) (v : β) :
    ∀ l : List (α × β), List.lookup k l = some v → v ∈ l.map Prod.snd := by
  intro l
  induction l with
  | nil => intro h; simp [List.lookup] at h
  | cons p rest ih =>
    intro h
    obtain ⟨a, b⟩ := p
    rw [List.lookup_cons] at h
    by_cases hk : (k == a) = true
    · simp [hk] at h
      simp [← h]
    · simp [hk] at h
      simp [ih h]

theorem table_values_ne_empty :
    ∀ v ∈ extension_mapping.map Prod.snd, v ≠ "" := by decide

/-- C4: `detect_content_type` is a pure function of the name (for a
fixed ambient MIME table): a hit on the lowercased extension returns
the table's label independently of the MIME guess, a miss falls back
to the guessed type's part after the last slash, no guess gives
`"plaintext"`, and matching is case-insensitive (`A.PY` and `a.py`
both map to `python`). -/
theorem claim_C4 (gm gm2 : String → Option String) (name : String) :
    (∀ l, extension_mapping.lookup (strLower (pathSuffix name)) = some l →
        detect_content_type gm name = l ∧
          detect_content_type gm name = detect_content_type gm2 name)
    ∧ (extension_mapping.lookup (strLower (pathSuffix name)) = none →
        gm name = none → detect_content_type gm name = "plaintext")
    ∧ (∀ m, extension_mapping.lookup (strLower (pathSuffix name)) = none →
        gm name = some m →
        detect_content_type gm name = (m.splitOn "/").getLastD "")
    ∧ detect_content_type gm "A.PY" = "python"
    ∧ detect_content_type gm "a.py" = "python" := by
  refine ⟨?_, ?_, ?_, rfl, rfl⟩
  · intro l h
    have hne : l ≠ "" :=
      table_values_ne_empty l (lookup_val_mem _ l extension_mapping h)
    exact ⟨by simp [detect_content_type, h, hne],
      by simp [detect_content_type, h, hne]⟩
  · intro h hg
    simp [detect_content_type, h, hg]
  · intro m h hg
    simp [detect_content_type, h, hg]

/-- Witness for C4 exercising all three branches concretely. -/
theorem claim_C4_witness :
    detect_content_type gmNone "noext" = "plaintext"
    ∧ detect_content_type gmHtml "x.weird" = ("text/html".splitOn "/").getLastD ""
    ∧ detect_content_type gmNone "M.RS" = "rust" :=
  ⟨(claim_C4 gmNone gmNone "noext").2.1 rfl rfl,
   (claim_C4 gmHtml gmHtml "x.weird").2.2.1 "text/html" rfl rfl,
   ((claim_C4 gmNone gmNone "M.RS").1 "rust" rfl).1⟩

/-- C9: reading and line counting decode leniently, so byte content
never aborts a file: an unfiltered file with a successful OS read is
always emitted as a section (whatever its bytes), the skip branch
fires exactly on OS-level read failure, and a file of invalid bytes is
included with the bytes dropped and its stats block present. -/
theorem claim_C9 :
    (∀ (gm : String → Option String) (rp rel : List String) (f : FileData)
        (st : WalkState),
      (rp ++ rel).any (fun part => ignoredName part) = false →
      f.readOk = true →
      (processFile gm rp st (rel, f)).sections.length = st.sections.length + 1)
    ∧ (∀ (gm : String → Option String) (rp rel : List String) (f : FileData)
        (st : WalkState), f.readOk = false →
        processFile gm rp st (rel, f) = st)
    ∧ processFile gmNone ["/", "home"] st0 (["bad.bin"], badBin) =
        { file_count := 1
          total_size := 1
          file_types := [".bin"]
          sections :=
            ["### bad.bin\n- Size: 0.01 KB\n- Lines: 0\n- Last Modified: 2024-01-01 00:00:00\n\n```plaintext\n\n```\n\n---\n"] } := by
  refine ⟨?_, ?_, by decide⟩
  · intro gm rp rel f st h1 h2
    simp [processFile, h1, h2]
  · intro gm rp rel f st h
    by_cases hf : (rp ++ rel).any (fun part => ignoredName part) = true
    · simp [processFile, hf]
    · simp [processFile, hf, h]

/-- Witness for C9: a good file is emitted, a file whose OS read fails
is skipped. -/
theorem claim_C9_witness :
    (processFile gmNone ["/", "home"] st0 (["a.py"], aPy)).sections.length =
      st0.sections.length + 1
    ∧ processFile gmNone ["/", "home"] st0 (["a.py"], aPyBroken) = st0 :=
  ⟨claim_C9.1 gmNone ["/", "home"] ["a.py"] aPy st0 (by decide) rfl,
   claim_C9.2.1 gmNone ["/", "home"] ["a.py"] aPyBroken st0 rfl⟩
